import Mathlib

/-!
Verification development for the openxrd Bruker RAW decoder
(openxrd/databruker.py).

The decoder is shallowly embedded: byte buffers are lists of natural
numbers, numeric values (IEEE floats in the source) are modelled as exact
rationals, and machine integers as naturals or integers.  The one dtype
coercion the control flow performs — filling the integer matrix allocated
by np.full(mask.shape, 0) with float samples, which truncates each sample
toward zero — is modelled explicitly.  The byte-level struct decoding of
whole records is abstracted by an oracle function from buffer positions to
decoded records; the control flow around it (the range loop, filtering,
map assembly, dataset algebra, lookups) is translated statement by
statement from the source.
-/

namespace Databruker

/-- Error taxonomy of the decoder, following the names used by the
specification.  All failures in the source are raised exceptions; the
constructor records which check fired. -/
inductive DErr where
  | invalidFormat
  | indexError
  | axisMismatch
  | typeError
  | valueError
  | keyCollision
  deriving DecidableEq

/-! ### Signature check (BrukerData.get_data_from_file) -/

/-- The bytes of the 7-byte magic string RAW1.01. -/
def sigBytes : List Nat := [82, 65, 87, 49, 46, 48, 49]

/-- Python bytes containment (the in operator): needle occurs as a
contiguous substring of hay. -/
def bytesContain (needle : List Nat) : List Nat → Bool
  | [] => needle.isPrefixOf []
  | a :: t => needle.isPrefixOf (a :: t) || bytesContain needle t

/-- Line 430 of the source: b"RAW1.01" not in filecontent[0:8]. -/
def hasSig (buf : List Nat) : Bool :=
  bytesContain sigBytes (buf.take 8)

/-- BrukerData.get_data_from_file, lines 423-433, modulo actual file IO:
returns the buffer unchanged when the signature check passes, otherwise the
invalid-file-type exception. -/
def get_data_from_file (buf : List Nat) : Except DErr (List Nat) :=
  if hasSig buf then .ok buf else .error .invalidFormat

/-! ### Field byte-size computation (BrukerData.get_metta, lines 537-557)

A schema field carries a type tag that is either a plain integer (a
fixed-length string of that many bytes) or one of the struct format
strings.  get_metta turns the tag into a byte count; for the variable
length tag (the string containing two question marks) it computes
bits = int(mettaclass[length] - pos) where pos is the absolute buffer
position field_offset + start_pos of the field. -/

inductive FieldType where
  | fixedStr (n : Nat)
  | i16s | u16s
  | f32 | u32
  | f64 | u64 | i64
  | varStr
  deriving DecidableEq

/-- The bits computation of get_metta (lines 543-553).  lengthVal is the
already-decoded record length field of the same record, fieldPos the field
offset stored in the schema, startPos the buffer position at which the
record starts. -/
def get_metta_field_bits (typ : FieldType) (lengthVal : Int)
    (fieldPos startPos : Nat) : Int :=
  match typ with
  | .fixedStr n => (n : Int)
  | .i16s | .u16s => 2
  | .f32 | .u32 => 4
  | .f64 | .u64 | .i64 => 8
  | .varStr => lengthVal - ((fieldPos : Int) + (startPos : Int))

/-! ### Decoded records

The fields of BrukerRangeHeader and of the supplemental headers that the
assembly code reads.  Only the fields the control flow consumes appear;
the remaining schema entries are decoded and stored but never read back by
the code under verification. -/

/-- The per-range header fields used by BrukerData (header_len, steps,
start_2th, step_size, sup_len). -/
structure RMeta where
  header_len : Nat
  steps : Nat
  start_2th : ℚ
  step_size : ℚ
  sup_len : Nat
  deriving Inhabited, DecidableEq

/-- The supplemental-header fields used by BrukerData.  The type tag is
none when sup_len = 0 (the source stores the dictionary with type None);
the psi and chi fields are only meaningful for the area-detector variant
(tag 200). -/
structure SuppMeta where
  type : Option Nat
  chi_start : ℚ
  chi_end : ℚ
  act_psi : ℚ
  deriving Inhabited, DecidableEq

/-- One decoded scan range (class BrukerRange): range header, supplemental
header, and the list of intensity samples. -/
structure BRange where
  metta : RMeta
  supmetta : SuppMeta
  counts_data : List ℚ
  deriving Inhabited, DecidableEq

/-- The dataset held by a BrukerData object after construction.  For a 1D
file y is the intensity vector and smap is none; for an area-detector file
y is the tilt axis and smap the intensity matrix (rows in range order). -/
structure Dataset where
  x : List ℚ
  y : List ℚ
  smap : Option (List (List ℚ))
  rngs : List BRange
  range_cnt : Nat
  filename : String
  deriving Inhabited, DecidableEq

/-! ### numpy helpers used by the source -/

/-- np.linspace start stop num with the default inclusive endpoint: num
evenly spaced samples from start to stop. -/
def linspace (start stop : ℚ) (num : Nat) : List ℚ :=
  if num = 0 then []
  else if num = 1 then [start]
  else (List.range num).map (fun i => start + i * (stop - start) / (num - 1))

/-- np.max over a list of naturals (the maximum of the lens array). -/
def natMax (l : List Nat) : Nat := l.foldl max 0

/-- np.argmax: index of the first occurrence of the maximum. -/
def argmaxNat : List Nat → Nat
  | [] => 0
  | a :: rest => go rest 1 0 a
where
  go : List Nat → Nat → Nat → Nat → Nat
    | [], _, besti, _ => besti
    | b :: t, i, besti, bestv =>
      if bestv < b then go t (i + 1) i b else go t (i + 1) besti bestv

/-- Python min over a nonempty list of rationals (0 on the empty list,
where the source would raise). -/
def minQ : List ℚ → ℚ
  | [] => 0
  | a :: rest => rest.foldl min a

/-- Python max over a nonempty list of rationals (0 on the empty list,
where the source would raise). -/
def maxQ : List ℚ → ℚ
  | [] => 0
  | a :: rest => rest.foldl max a

/-! ### Area-map assembly (BrukerData.get_smap, lines 457-487) -/

/-- The cast applied when a float sample is assigned into the integer
matrix np.full(mask.shape, 0): C-style truncation toward zero (floor for
nonnegative values, ceiling for negative ones). -/
def truncToZero (q : ℚ) : Int := if 0 ≤ q then ⌊q⌋ else ⌈q⌉

/-- The boolean-mask zero-padding of get_smap: the matrix
out = np.full(mask.shape, 0) with out[mask] = np.concatenate(smap), where
mask[i][j] holds iff j < len(smap[i]).  np.full called with the integer
fill value 0 and no dtype allocates an integer matrix, so each 32-bit
float sample is truncated toward zero on assignment.  Row i holds the
truncated samples of range i left-aligned, then zeros up to maxLen
columns. -/
def padRows (rows : List (List ℚ)) (maxLen : Nat) : List (List ℚ) :=
  rows.map (fun row =>
    (List.range maxLen).map (fun j =>
      if j < row.length then ((truncToZero (row.getD j 0) : Int) : ℚ) else 0))

/-- BrukerData.get_smap: returns (x, y, smap) — the synthesized angular
axis, the synthesized tilt axis, and the zero-padded intensity matrix. -/
def get_smap (rngs : List BRange) : List ℚ × List ℚ × List (List ℚ) :=
  let tilt := rngs.map (fun r =>
    90 - r.supmetta.act_psi +
      (90 + r.supmetta.chi_start - (r.supmetta.chi_start - r.supmetta.chi_end) / 2))
  let smapRaw := rngs.map (fun r => r.counts_data)
  let lens := smapRaw.map (fun l => l.length)
  let out := padRows smapRaw (natMax lens)
  let userng := argmaxNat lens
  let r0 := rngs.getD userng default
  let twoth_0 := r0.metta.start_2th
  let twoth_s := r0.metta.step_size
  let twoth_e := twoth_0 + twoth_s * r0.metta.steps
  let x := linspace twoth_0 twoth_e (natMax lens)
  let y := linspace (minQ tilt) (maxQ tilt) rngs.length
  (x, y, out)

/-! ### The range loop and dataset construction (BrukerData.__init__) -/

/-- Cursor advancement of BrukerData.get_range (lines 435-455): past the
range header, the supplemental bytes, and steps 4-byte float samples. -/
def nextPos (r : BRange) (pos : Nat) : Nat :=
  pos + r.metta.header_len + r.metta.sup_len + 4 * r.metta.steps

/-- The loop of __init__ lines 389-395 over an oracle decodeAt that stands
for get_range byte decoding at a given buffer position: n remaining
iterations, current cursor pos, current value of the mutable range_cnt
header entry.  Ranges with steps = 0 are dropped and the count
decremented; all declared ranges are still decoded and the cursor advances
through every one of them. -/
def rangeLoop (decodeAt : Nat → BRange) : Nat → Nat → Nat → List BRange × Nat
  | 0, _, cnt => ([], cnt)
  | n + 1, pos, cnt =>
    let rng := decodeAt pos
    if 0 < rng.metta.steps then
      let rest := rangeLoop decodeAt n (nextPos rng pos) cnt
      (rng :: rest.1, rest.2)
    else
      rangeLoop decodeAt n (nextPos rng pos) (cnt - 1)

/-- The sequence of all n ranges the loop decodes, at the cursor-relative
positions the loop visits, before any filtering. -/
def decodedSeq (decodeAt : Nat → BRange) : Nat → Nat → List BRange
  | 0, _ => []
  | n + 1, pos =>
    let rng := decodeAt pos
    rng :: decodedSeq decodeAt n (nextPos rng pos)

/-- BrukerData.__init__ for a file buffer (lines 385-413): run the range
loop from position 712 with the declared range count, then inspect the
first retained range.  An empty retained list makes the source index an
empty Python list (rngs[0], line 397), an untyped IndexError.  Supp type
200 triggers area-map assembly; any other case takes the 1D branch. -/
def bdInit (decodeAt : Nat → BRange) (range_cnt : Nat) (filename : String) :
    Except DErr Dataset :=
  let res := rangeLoop decodeAt range_cnt 712 range_cnt
  match res.1 with
  | [] => .error .indexError
  | r0 :: rest =>
    if r0.supmetta.type = some 200 then
      let s := get_smap (r0 :: rest)
      .ok { x := s.1, y := s.2.1, smap := some s.2.2, rngs := r0 :: rest,
            range_cnt := res.2, filename := filename }
    else
      let yv := r0.counts_data
      let twoth_0 := r0.metta.start_2th
      let twoth_s := r0.metta.step_size
      let twoth_e := twoth_0 + twoth_s * r0.metta.steps
      .ok { x := linspace twoth_0 twoth_e yv.length, y := yv, smap := none,
            rngs := r0 :: rest, range_cnt := res.2, filename := filename }

/-! ### Dataset concatenation (BrukerData.__add__, lines 559-572) -/

/-- BrukerData.__add__: unless the tilt axes compare equal with
np.array_equal the operation fails (the raise on line 562, reported
through the surrounding except clause; in the specification taxonomy this
is the AxisMismatch failure).  On success the intensity matrices are
concatenated along axis 1 — which numpy only accepts for equal row
counts — the angular axes along axis 0, and the range lists appended.
Operands without a matrix (smap None for a 1D dataset) make np.concatenate
raise a TypeError. -/
def bdAdd (a b : Dataset) : Except DErr Dataset :=
  if a.y = b.y then
    match a.smap, b.smap with
    | some A, some B =>
      if A.length = B.length then
        .ok { x := a.x ++ b.x, y := a.y,
              smap := some (List.zipWith (fun r s => r ++ s) A B),
              rngs := a.rngs ++ b.rngs, range_cnt := a.range_cnt,
              filename := a.filename ++ " & " ++ b.filename }
      else .error .valueError
    | _, _ => .error .typeError
  else .error .axisMismatch

/-! ### Nearest-index lookup (BrukerData.get_index_xy, lines 499-507) -/

/-- Scanner behind the argmin: walk the remaining entries at index i,
carrying the best index and its distance; a strictly smaller distance
updates the best, ties keep the earlier index. -/
def argminAux (v : ℚ) : List ℚ → Nat → Nat → ℚ → Nat
  | [], _, besti, _ => besti
  | b :: t, i, besti, bestd =>
    if |b - v| < bestd then argminAux v t (i + 1) i |b - v|
    else argminAux v t (i + 1) besti bestd

/-- np.argmin of the pointwise distances |entry - v|: index of the first
entry at minimal absolute difference (0 on the empty list, where numpy
would raise). -/
def argminAbs (l : List ℚ) (v : ℚ) : Nat :=
  match l with
  | [] => 0
  | a :: rest => argminAux v rest 1 0 |a - v|

/-- BrukerData.get_index_xy: nearest index on each axis independently,
with the special case that a single-element axis whose only entry is
strictly below the query resolves to index 1. -/
def get_index_xy (X Y : List ℚ) (x y : ℚ) : Nat × Nat :=
  let y_out0 := argminAbs Y y
  let y_out := if Y.length = 1 ∧ Y.getD 0 0 < y then 1 else y_out0
  let x_out0 := argminAbs X x
  let x_out := if X.length = 1 ∧ X.getD 0 0 < x then 1 else x_out0
  (x_out, y_out)

/-! ### Header-schema tables and composition (BrukerHeader, lines 132-157)

A BrukerHeader holds a mutable dictionary _attrs.  Python objects are
modelled by a store of tables addressed by pointers; a header object is
the pointer to its table.  The entry payloads (value, label, type, offset
quadruples in the source) are irrelevant to copying and composition, so a
table is an association list from field names to an integer payload. -/

/-- A header field table: association list name to payload. -/
abbrev AttrTable := List (String × Int)

/-- The heap of allocated field tables; a header object is an index. -/
abbrev Store := List AttrTable

/-- BrukerHeader.__deepcopy__ (lines 140-144): allocates a fresh header
object but assigns it the very same _attrs dictionary, so on the table
store the copy is the same table pointer. -/
def headerDeepcopy (h : Nat) : Nat := h

/-- Python dict.update: overwrite payloads of shared keys in place, then
append the keys only present in the other table, in order. -/
def dictUpdate (d o : AttrTable) : AttrTable :=
  (d.map (fun kv =>
    match o.find? (fun kv2 => kv2.1 == kv.1) with
    | some kv2 => (kv.1, kv2.2)
    | none => kv))
    ++ o.filter (fun kv2 => !(d.any (fun kv => kv.1 == kv2.1)))

/-- BrukerHeader.__add__ (lines 146-157): fail when any field name occurs
in both operands, otherwise take _head = self.copy() and mutate the store
at the copied pointer with _head._attrs.update(other._attrs), returning
the updated store and the pointer of the result object. -/
def headerAdd (store : Store) (self other : Nat) : Except DErr (Store × Nat) :=
  let st := store.getD self []
  let ot := store.getD other []
  if st.any (fun kv => ot.any (fun kv2 => kv2.1 == kv.1)) then
    .error .keyCollision
  else
    let c := headerDeepcopy self
    .ok (store.set c (dictUpdate (store.getD c []) ot), c)

/-- Equality of Except values is decidable when both components are, so
that concrete runs of the decoder can be settled by evaluation. -/
instance {ε α : Type} [DecidableEq ε] [DecidableEq α] : DecidableEq (Except ε α) :=
  fun a b =>
  match a, b with
  | .ok x, .ok y => decidable_of_iff (x = y) (by simp)
  | .ok _, .error _ => isFalse (fun h => Except.noConfusion h)
  | .error _, .ok _ => isFalse (fun h => Except.noConfusion h)
  | .error e, .error f => decidable_of_iff (e = f) (by simp)

/-! ### Support lemmas on the signature check -/

lemma isPrefixOf_take (n : List Nat) :
    ∀ (L : List Nat) (k : Nat), n.length ≤ k →
      n.isPrefixOf (L.take k) = n.isPrefixOf L := by
  induction n with
  | nil => intro L k _; cases L <;> cases k <;> rfl
  | cons x xs ih =>
    intro L k hk
    cases L with
    | nil => simp
    | cons y ys =>
      cases k with
      | zero => simp at hk
      | succ k =>
        simp only [List.take_succ_cons, List.isPrefixOf_cons₂]
        rw [ih ys k (by simpa using hk)]

lemma isPrefixOf_false_of_short (n : List Nat) :
    ∀ h : List Nat, h.length < n.length → n.isPrefixOf h = false := by
  induction n with
  | nil => intro h hh; simp at hh
  | cons x xs ih =>
    intro h hh
    cases h with
    | nil => rfl
    | cons y ys =>
      simp only [List.isPrefixOf_cons₂]
      rw [ih ys (by simpa using hh)]
      simp

lemma bytesContain_false_of_short (n : List Nat) :
    ∀ h : List Nat, h.length < n.length → bytesContain n h = false := by
  intro h
  induction h with
  | nil =>
    intro hh
    simp only [bytesContain]
    exact isPrefixOf_false_of_short n [] hh
  | cons a t ih =>
    intro hh
    simp only [bytesContain, Bool.or_eq_false_iff]
    exact ⟨isPrefixOf_false_of_short n (a :: t) hh,
           ih (Nat.lt_of_le_of_lt (Nat.le_succ t.length) hh)⟩

/-- The containment test of get_data_from_file over the first eight bytes
amounts to the seven signature bytes sitting at offset 0 or at offset 1 of
the buffer. -/
lemma hasSig_eq_startPositions (buf : List Nat) :
    hasSig buf = (sigBytes.isPrefixOf buf || sigBytes.isPrefixOf (buf.drop 1)) := by
  cases buf with
  | nil => decide
  | cons a t =>
    show bytesContain sigBytes ((a :: t).take 8) = _
    have h8 : (a :: t).take 8 = a :: t.take 7 := rfl
    rw [h8]
    simp only [bytesContain]
    have h1 : sigBytes.isPrefixOf (a :: t.take 7) = sigBytes.isPrefixOf (a :: t) := by
      have := isPrefixOf_take sigBytes (a :: t) 8 (by decide)
      simpa [h8] using this
    have h2 : bytesContain sigBytes (t.take 7) = sigBytes.isPrefixOf t := by
      cases t with
      | nil => decide
      | cons b u =>
        have h7 : (b :: u).take 7 = b :: u.take 6 := rfl
        rw [h7]
        simp only [bytesContain]
        have hb1 : sigBytes.isPrefixOf (b :: u.take 6) = sigBytes.isPrefixOf (b :: u) := by
          have := isPrefixOf_take sigBytes (b :: u) 7 (by decide)
          simpa [h7] using this
        have hb2 : bytesContain sigBytes (u.take 6) = false := by
          refine bytesContain_false_of_short sigBytes (u.take 6) ?_
          have hu : (u.take 6).length ≤ 6 := List.length_take_le 6 u
          have hs : sigBytes.length = 7 := rfl
          omega
        rw [hb1, hb2, Bool.or_false]
    rw [h1, h2]
    simp

/-- Claim C2 (amended): decoding rejects the buffer with InvalidFormat
exactly when the 7-byte signature RAW1.01 occurs neither at offset 0 nor
at offset 1 of the buffer; equivalently, a buffer whose first eight bytes
merely contain the signature starting at offset 1 is accepted. -/
theorem C2_theorem (buf : List Nat) :
    get_data_from_file buf = .error .invalidFormat ↔
      sigBytes.isPrefixOf buf = false ∧ sigBytes.isPrefixOf (buf.drop 1) = false := by
  unfold get_data_from_file
  rw [hasSig_eq_startPositions]
  cases hp1 : sigBytes.isPrefixOf buf with
  | true => simp
  | false =>
    cases hp2 : sigBytes.isPrefixOf (buf.drop 1) with
    | true => simp
    | false => simp

/-- A buffer whose first eight bytes differ from the signature (it neither
equals nor begins with RAW1.01) that get_data_from_file nevertheless
accepts: the signature sits at offset 1. -/
def c2buf : List Nat := 88 :: sigBytes

/-- Claim C2 counterexample: the buffer starting with the byte 88 followed
by the signature has first eight bytes different from the required
signature, yet decoding accepts it (no InvalidFormat failure). -/
theorem C2_counterexample :
    c2buf.take 8 ≠ sigBytes ∧ sigBytes.isPrefixOf c2buf = false ∧
      get_data_from_file c2buf = .ok c2buf := by decide

/-- Claim C3: evaluation of the variable-length field size computation at
a record placed at buffer position 712 (the first position at which such a
record can occur) with record length field 20 and field offset 8: the code
yields 20 - (8 + 712) = -700, while the record-relative length of the
claim is 20 - 8 = 12; only a record starting at position 0 matches the
claim. -/
theorem C3_code_eval :
    get_metta_field_bits .varStr 20 8 712 = -700 ∧
      get_metta_field_bits .varStr 20 8 0 = 20 - 8 ∧
      (-700 : Int) ≠ 20 - 8 := by decide

/-- The two-schema store of the C9 scenario: header object 0 owns the
table with field a, header object 1 the table with field b. -/
def c9store : Store := [[("a", 1)], [("b", 2)]]

/-- Claim C9: evaluating schema composition on two disjoint one-field
schemas.  The sum returns the merged table, but the store afterwards shows
the left operand mutated: its table (pointer 0, shared with the copy
because deepcopy aliases the attrs dictionary) now also holds field b,
contradicting the unchanged-operands claim. -/
theorem C9_code_eval :
    headerAdd c9store 0 1 = .ok ([[("a", 1), ("b", 2)], [("b", 2)]], 0) ∧
      ([[("a", 1), ("b", 2)], [("b", 2)]] : Store).getD 0 [] ≠ c9store.getD 0 [] := by
  decide

/-! ### The range loop as a filter over the declared ranges -/

/-- The loop of __init__ keeps exactly the ranges with a positive step
count, in decode order, and ends with the count field lowered by the
number of dropped ranges; the cursor walks through every declared range
either way. -/
lemma rangeLoop_eq_filter (decodeAt : Nat → BRange) :
    ∀ (n pos cnt : Nat),
      rangeLoop decodeAt n pos cnt =
        ((decodedSeq decodeAt n pos).filter (fun r => decide (0 < r.metta.steps)),
         cnt - ((decodedSeq decodeAt n pos).filter
                  (fun r => decide (r.metta.steps = 0))).length) := by
  intro n
  induction n with
  | zero => intro pos cnt; simp [rangeLoop, decodedSeq]
  | succ n ih =>
    intro pos cnt
    simp only [rangeLoop, decodedSeq]
    by_cases h : 0 < (decodeAt pos).metta.steps
    · rw [if_pos h, ih]
      have hz : ¬(decodeAt pos).metta.steps = 0 := Nat.pos_iff_ne_zero.mp h
      simp [List.filter_cons, h, hz]
    · rw [if_neg h, ih]
      have hz : (decodeAt pos).metta.steps = 0 := Nat.eq_zero_of_not_pos h
      simp only [List.filter_cons, h, hz, decide_eq_true_eq, if_false, if_true,
        List.length_cons, Prod.mk.injEq]
      refine ⟨by simp [h], by omega⟩

/-- Claim C5: every decoded range with steps = 0 is excluded and the
global count decremented once per exclusion, while the loop still decodes
all originally declared ranges at cursor-relative offsets; the ranges with
steps > 0 are retained in order. -/
theorem C5_theorem (decodeAt : Nat → BRange) (n pos cnt : Nat) :
    rangeLoop decodeAt n pos cnt =
      ((decodedSeq decodeAt n pos).filter (fun r => decide (0 < r.metta.steps)),
       cnt - ((decodedSeq decodeAt n pos).filter
                (fun r => decide (r.metta.steps = 0))).length) :=
  rangeLoop_eq_filter decodeAt n pos cnt

/-! ### Dataset construction -/

/-- Construction from a single retained non-area range takes the 1D
branch: the intensity vector is the decoded sample list itself and the
angular axis the inclusive linear spacing from the start angle to
start + step * steps. -/
lemma bdInit_single (decodeAt : Nat → BRange) (fn : String)
    (h0 : 0 < (decodeAt 712).metta.steps)
    (htype : (decodeAt 712).supmetta.type ≠ some 200) :
    bdInit decodeAt 1 fn =
      .ok { x := linspace (decodeAt 712).metta.start_2th
              ((decodeAt 712).metta.start_2th +
                (decodeAt 712).metta.step_size * (decodeAt 712).metta.steps)
              (decodeAt 712).counts_data.length,
            y := (decodeAt 712).counts_data, smap := none,
            rngs := [decodeAt 712], range_cnt := 1, filename := fn } := by
  have hloop : rangeLoop decodeAt 1 712 1 = ([decodeAt 712], 1) := by
    simp [rangeLoop, if_pos h0]
  simp [bdInit, hloop, htype]

/-- Evaluation of the five-point inclusive linear spacing of the C1
scenario: the spacing between consecutive points is 5/4, not the step
size 1. -/
lemma linspace_eval_c1 : linspace 10 15 5 = [10, 45/4, 25/2, 55/4, 15] := by
  unfold linspace
  norm_num [List.range_succ]

/-- Claim C1 (amended): a valid single-range 1D file with steps 5, start
angle 10, step size 1 and five known samples decodes to a dataset whose
intensity vector is the five samples verbatim and whose angular axis is
the five-point inclusive linear spacing from 10 to 15, namely
[10, 45/4, 25/2, 55/4, 15]. -/
theorem C1_theorem (decodeAt : Nat → BRange) (s : List ℚ) (fn : String)
    (hsteps : (decodeAt 712).metta.steps = 5)
    (hstart : (decodeAt 712).metta.start_2th = 10)
    (hstep : (decodeAt 712).metta.step_size = 1)
    (hcounts : (decodeAt 712).counts_data = s)
    (hlen : s.length = 5)
    (htype : (decodeAt 712).supmetta.type ≠ some 200) :
    bdInit decodeAt 1 fn =
      .ok { x := [10, 45/4, 25/2, 55/4, 15], y := s, smap := none,
            rngs := [decodeAt 712], range_cnt := 1, filename := fn } := by
  rw [bdInit_single decodeAt fn (by omega) htype]
  rw [hsteps, hstart, hstep, hcounts, hlen]
  have hend : (10 : ℚ) + 1 * ((5 : Nat) : ℚ) = 15 := by norm_num
  rw [hend, linspace_eval_c1]

/-- The concrete single range of the C1 scenario: steps 5, start angle 10,
step size 1, samples 1..5, no supplemental header. -/
def c1range : BRange :=
  { metta := { header_len := 304, steps := 5, start_2th := 10, step_size := 1,
               sup_len := 0 },
    supmetta := { type := none, chi_start := 0, chi_end := 0, act_psi := 0 },
    counts_data := [1, 2, 3, 4, 5] }

/-- Claim C1 counterexample: on the scenario file the decoder returns the
five samples verbatim but the angular axis [10, 45/4, 25/2, 55/4, 15],
which differs from the [10, 11, 12, 13, 14] the claim requires (the
spacing is step * steps / (steps - 1) = 5/4, not the step size 1). -/
theorem C1_counterexample :
    (bdInit (fun _ => c1range) 1 "scan.raw").toOption.map Dataset.x =
        some [10, 45/4, 25/2, 55/4, 15] ∧
      (bdInit (fun _ => c1range) 1 "scan.raw").toOption.map Dataset.y =
        some [1, 2, 3, 4, 5] ∧
      ([10, 45/4, 25/2, 55/4, 15] : List ℚ) ≠ [10, 11, 12, 13, 14] := by
  have h := bdInit_single (fun _ => c1range) "scan.raw" (by decide) (by decide)
  have hend : c1range.metta.start_2th +
      c1range.metta.step_size * (c1range.metta.steps : ℚ) = 15 := by
    show (10 : ℚ) + 1 * ((5 : Nat) : ℚ) = 15
    norm_num
  refine ⟨?_, ?_, by norm_num⟩
  · rw [h]
    show some (linspace c1range.metta.start_2th _ c1range.counts_data.length) = _
    rw [hend]
    show some (linspace 10 15 5) = _
    rw [linspace_eval_c1]
  · rw [h]
    rfl

/-- Claim C1 witness: the amended statement applied to the concrete
scenario file. -/
theorem C1_witness :
    c1range.metta.steps = 5 ∧
      bdInit (fun _ => c1range) 1 "scan.raw" =
        .ok { x := [10, 45/4, 25/2, 55/4, 15], y := [1, 2, 3, 4, 5], smap := none,
              rngs := [c1range], range_cnt := 1, filename := "scan.raw" } :=
  ⟨rfl, C1_theorem (fun _ => c1range) [1, 2, 3, 4, 5] "scan.raw"
    rfl rfl rfl rfl rfl (by decide)⟩

/-- Claim C10: when no range is retained — the declared count is zero or
every declared range has steps = 0 — construction fails with the untyped
out-of-range error from indexing the empty range list, and dually every
successfully constructed dataset has at least one retained range. -/
theorem C10_theorem (decodeAt : Nat → BRange) (cnt : Nat) (fn : String) :
    ((cnt = 0 ∨ ∀ r ∈ decodedSeq decodeAt cnt 712, r.metta.steps = 0) →
        bdInit decodeAt cnt fn = .error .indexError) ∧
      ∀ d, bdInit decodeAt cnt fn = .ok d → d.rngs ≠ [] := by
  constructor
  · intro h
    have hempty : (rangeLoop decodeAt cnt 712 cnt).1 = [] := by
      rw [rangeLoop_eq_filter]
      rcases h with h0 | hall
      · subst h0; simp [decodedSeq]
      · refine List.filter_eq_nil_iff.mpr ?_
        intro r hr
        simp [hall r hr]
    simp [bdInit, hempty]
  · intro d hok
    cases hres : (rangeLoop decodeAt cnt 712 cnt).1 with
    | nil => simp [bdInit, hres] at hok
    | cons r0 rest =>
      simp only [bdInit, hres] at hok
      split at hok <;>
        · rw [Except.ok.injEq] at hok
          rw [← hok]
          simp

/-- Claim C10 witness: a declared range count of zero makes construction
fail with the out-of-range error. -/
theorem C10_witness :
    ((0 : Nat) = 0 ∨ ∀ r ∈ decodedSeq (fun _ => default) 0 712, r.metta.steps = 0) ∧
      bdInit (fun _ => default) 0 "w.raw" = .error .indexError :=
  ⟨Or.inl rfl, (C10_theorem (fun _ => default) 0 "w.raw").1 (Or.inl rfl)⟩

/-! ### The ragged-to-rectangular map: support lemmas -/

lemma foldl_max_init_le (l : List Nat) : ∀ init : Nat, init ≤ l.foldl max init := by
  induction l with
  | nil => intro init; exact Nat.le_refl init
  | cons a t ih =>
    intro init
    exact Nat.le_trans (Nat.le_max_left init a) (ih (max init a))

lemma le_foldl_max_of_mem (l : List Nat) :
    ∀ (init a : Nat), a ∈ l → a ≤ l.foldl max init := by
  induction l with
  | nil => intro _ a ha; cases ha
  | cons b t ih =>
    intro init a ha
    rcases List.mem_cons.mp ha with h | h
    · subst h
      exact Nat.le_trans (Nat.le_max_right init a) (foldl_max_init_le t (max init a))
    · exact ih (max init b) a h

lemma foldl_max_mem (l : List Nat) :
    ∀ init : Nat, l.foldl max init = init ∨ l.foldl max init ∈ l := by
  induction l with
  | nil => intro init; exact Or.inl rfl
  | cons a t ih =>
    intro init
    rcases ih (max init a) with h | h
    · rcases max_choice init a with hm | hm
      · exact Or.inl (by rw [List.foldl_cons, h, hm])
      · exact Or.inr (by rw [List.foldl_cons, h, hm]; exact List.mem_cons_self a t)
    · exact Or.inr (List.mem_cons_of_mem a h)

lemma natMax_ge (l : List Nat) (a : Nat) (ha : a ∈ l) : a ≤ natMax l :=
  le_foldl_max_of_mem l 0 a ha

lemma natMax_mem (l : List Nat) (hne : l ≠ []) : natMax l ∈ l := by
  rcases foldl_max_mem l 0 with h | h
  · cases l with
    | nil => exact absurd rfl hne
    | cons a t =>
      have ha : a ≤ natMax (a :: t) := natMax_ge _ a (List.mem_cons_self a t)
      have h0 : natMax (a :: t) = (a :: t).foldl max 0 := rfl
      have ha0 : a = 0 := by omega
      have hval : natMax (a :: t) = a := by omega
      rw [hval]
      exact List.mem_cons_self a t
  · exact h

lemma padRows_length (rows : List (List ℚ)) (m : Nat) :
    (padRows rows m).length = rows.length := by
  simp [padRows]

lemma padRows_row_length (rows : List (List ℚ)) (m : Nat) :
    ∀ row ∈ padRows rows m, row.length = m := by
  intro row hrow
  rcases List.mem_map.mp hrow with ⟨r, _, hr⟩
  simp [← hr]

lemma padRows_entry (rows : List (List ℚ)) (m i j : Nat)
    (hi : i < rows.length) (hj : j < m) :
    ((padRows rows m).getD i []).getD j 0 =
      if j < (rows.getD i []).length
      then ((truncToZero ((rows.getD i []).getD j 0) : Int) : ℚ) else 0 := by
  have hi2 : i < (padRows rows m).length := by rw [padRows_length]; exact hi
  rw [List.getD_eq_getElem _ _ hi2]
  unfold padRows
  rw [List.getElem_map]
  have hj2 : j < ((List.range m).map
      (fun k => if k < (rows[i]).length
        then ((truncToZero ((rows[i]).getD k 0) : Int) : ℚ) else 0)).length := by
    simpa using hj
  rw [List.getD_eq_getElem _ _ hj2, List.getElem_map, List.getElem_range,
    List.getD_eq_getElem _ _ hi]

/-- The matrix component of get_smap is the zero-padding of the sample
rows to the maximal sample count. -/
lemma get_smap_matrix (rngs : List BRange) :
    (get_smap rngs).2.2 =
      padRows (rngs.map (fun r => r.counts_data))
        (natMax ((rngs.map (fun r => r.counts_data)).map (fun l => l.length))) := rfl

lemma counts_getD (rngs : List BRange) (i : Nat) (hi : i < rngs.length) :
    (rngs.map (fun r => r.counts_data)).getD i [] =
      (rngs.getD i default).counts_data := by
  have hi2 : i < (rngs.map (fun r => r.counts_data)).length := by simpa using hi
  rw [List.getD_eq_getElem _ _ hi2, List.getElem_map, List.getD_eq_getElem _ _ hi]

/-- Claim C4 (amended): for an area-detector file the assembled intensity
matrix has one row per retained range and a number of columns that bounds
every retained step count and is attained by one of them; each row carries
the samples of its range left-aligned after truncation toward zero to
integers (the matrix allocated by np.full(mask.shape, 0) has integer
dtype) and is zero past its own sample count. -/
theorem C4_theorem (rngs : List BRange) (hne : rngs ≠ [])
    (hc : ∀ r ∈ rngs, r.counts_data.length = r.metta.steps) :
    (get_smap rngs).2.2.length = rngs.length ∧
      (∀ row ∈ (get_smap rngs).2.2, ∀ r ∈ rngs, r.metta.steps ≤ row.length) ∧
      (∃ r ∈ rngs, ∀ row ∈ (get_smap rngs).2.2, row.length = r.metta.steps) ∧
      (∀ i j, i < rngs.length → j < (rngs.getD i default).counts_data.length →
        ((get_smap rngs).2.2.getD i []).getD j 0 =
          ((truncToZero ((rngs.getD i default).counts_data.getD j 0) : Int) : ℚ)) ∧
      (∀ i j, i < rngs.length → (rngs.getD i default).counts_data.length ≤ j →
        j < ((get_smap rngs).2.2.getD i []).length →
        ((get_smap rngs).2.2.getD i []).getD j 0 = 0) := by
  have hlensne : (rngs.map (fun r => r.counts_data)).map (fun l => l.length) ≠ [] := by
    simpa using hne
  have hsteps_le : ∀ r ∈ rngs, r.metta.steps ≤
      natMax ((rngs.map (fun r => r.counts_data)).map (fun l => l.length)) := by
    intro r hr
    have hmem : r.counts_data.length ∈
        (rngs.map (fun r => r.counts_data)).map (fun l => l.length) :=
      List.mem_map.mpr ⟨r.counts_data, List.mem_map.mpr ⟨r, hr, rfl⟩, rfl⟩
    have := natMax_ge _ _ hmem
    rw [hc r hr] at this
    exact this
  have hgetDmem : ∀ i, i < rngs.length → rngs.getD i default ∈ rngs := by
    intro i hi
    rw [List.getD_eq_getElem _ _ hi]
    exact List.getElem_mem hi
  constructor
  · rw [get_smap_matrix, padRows_length]
    simp
  constructor
  · intro row hrow r hr
    have := padRows_row_length _ _ row (by rwa [get_smap_matrix] at hrow)
    rw [this]
    exact hsteps_le r hr
  constructor
  · have hmem := natMax_mem _ hlensne
    rcases List.mem_map.mp hmem with ⟨cd, hcd, hcdlen⟩
    rcases List.mem_map.mp hcd with ⟨r, hr, hrcd⟩
    refine ⟨r, hr, ?_⟩
    intro row hrow
    have := padRows_row_length _ _ row (by rwa [get_smap_matrix] at hrow)
    rw [this, ← hc r hr, ← hcdlen, hrcd]
  constructor
  · intro i j hi hj
    have hjM : j <
        natMax ((rngs.map (fun r => r.counts_data)).map (fun l => l.length)) := by
      have hle := hsteps_le _ (hgetDmem i hi)
      rw [← hc _ (hgetDmem i hi)] at hle
      omega
    rw [get_smap_matrix, padRows_entry _ _ i j (by simpa using hi) hjM,
      counts_getD rngs i hi]
    rw [if_pos hj]
  · intro i j hi hge hlt
    rw [get_smap_matrix] at hlt
    have hi2 : i < (padRows (rngs.map (fun r => r.counts_data))
        (natMax ((rngs.map (fun r => r.counts_data)).map (fun l => l.length)))).length := by
      rw [padRows_length]; simpa using hi
    have hrowmem : (padRows (rngs.map (fun r => r.counts_data))
        (natMax ((rngs.map (fun r => r.counts_data)).map (fun l => l.length)))).getD i [] ∈
        padRows (rngs.map (fun r => r.counts_data))
          (natMax ((rngs.map (fun r => r.counts_data)).map (fun l => l.length))) := by
      rw [List.getD_eq_getElem _ _ hi2]
      exact List.getElem_mem hi2
    have hrowlen := padRows_row_length _ _ _ hrowmem
    have hjM : j <
        natMax ((rngs.map (fun r => r.counts_data)).map (fun l => l.length)) := by
      omega
    rw [get_smap_matrix, padRows_entry _ _ i j (by simpa using hi) hjM,
      counts_getD rngs i hi]
    rw [if_neg (by omega)]

/-- One-sample area-detector range holding the fractional sample 3/2, on
which the integer-matrix truncation is visible. -/
def c4rngC : BRange :=
  { metta := { header_len := 304, steps := 1, start_2th := 10, step_size := 1,
               sup_len := 124 },
    supmetta := { type := some 200, chi_start := 1, chi_end := 2, act_psi := 3 },
    counts_data := [3/2] }

/-- Claim C4 counterexample: the retained range holds the sample 3/2, yet
the assembled matrix entry at row 0, column 0 is 1 — the sample truncated
toward zero by the assignment into the integer matrix — so the samples are
not copied verbatim as the claim states. -/
theorem C4_counterexample :
    c4rngC.counts_data.getD 0 0 = 3/2 ∧
      ((get_smap [c4rngC]).2.2.getD 0 []).getD 0 0 = 1 ∧
      (1 : ℚ) ≠ 3/2 := by
  refine ⟨rfl, ?_, by norm_num⟩
  have hm : 0 < natMax ((([c4rngC] : List BRange).map
      (fun r => r.counts_data)).map (fun l => l.length)) := by decide
  rw [get_smap_matrix, padRows_entry _ _ 0 0 (by decide) hm, counts_getD _ 0 (by decide)]
  have hlen : (0 : Nat) < (([c4rngC] : List BRange).getD 0 default).counts_data.length := by
    decide
  rw [if_pos hlen]
  show ((truncToZero (c4rngC.counts_data.getD 0 0) : Int) : ℚ) = 1
  show ((truncToZero (3/2) : Int) : ℚ) = 1
  unfold truncToZero
  norm_num

/-- First range of the C4 witness scenario: one sample. -/
def c4rngA : BRange :=
  { metta := { header_len := 304, steps := 1, start_2th := 10, step_size := 1,
               sup_len := 124 },
    supmetta := { type := some 200, chi_start := 1, chi_end := 2, act_psi := 3 },
    counts_data := [5] }

/-- Second range of the C4 witness scenario: two samples. -/
def c4rngB : BRange :=
  { metta := { header_len := 304, steps := 2, start_2th := 20, step_size := 2,
               sup_len := 124 },
    supmetta := { type := some 200, chi_start := 1, chi_end := 2, act_psi := 4 },
    counts_data := [6, 7] }

/-- Claim C4 witness: the map-assembly shape statement applied to two
concrete area-detector ranges of lengths one and two. -/
theorem C4_witness :
    (([c4rngA, c4rngB] : List BRange) ≠ [] ∧
        ∀ r ∈ ([c4rngA, c4rngB] : List BRange),
          r.counts_data.length = r.metta.steps) ∧
      (get_smap [c4rngA, c4rngB]).2.2.length = ([c4rngA, c4rngB] : List BRange).length :=
  ⟨⟨by decide, by decide⟩, (C4_theorem [c4rngA, c4rngB] (by decide) (by decide)).1⟩

/-! ### Dataset concatenation: claim C6 -/

lemma zipWith_append_getD (A B : List (List ℚ)) (i : Nat)
    (hiA : i < A.length) (hiB : i < B.length) :
    (List.zipWith (fun r s => r ++ s) A B).getD i [] =
      (A.getD i []) ++ (B.getD i []) := by
  have hi : i < (List.zipWith (fun r s => r ++ s) A B).length := by
    rw [List.length_zipWith]; omega
  rw [List.getD_eq_getElem _ _ hi, List.getElem_zipWith,
    List.getD_eq_getElem _ _ hiA, List.getD_eq_getElem _ _ hiB]

/-- Claim C6: concatenation fails with AxisMismatch unless the tilt axes
are element-wise equal; on success the angular axis is the concatenation
of the two angular axes, the intensity matrix the column-wise
concatenation (each row the concatenation of the operand rows, so the
column count is the sum of the operand column counts), the tilt axis the
common tilt axis, and the range list the concatenation of the two range
lists. -/
theorem C6_theorem (a b : Dataset) (A B : List (List ℚ))
    (ha : a.smap = some A) (hb : b.smap = some B)
    (hra : A.length = a.y.length) (hrb : B.length = b.y.length) :
    (a.y ≠ b.y → bdAdd a b = .error .axisMismatch) ∧
      (a.y = b.y →
        bdAdd a b = .ok { x := a.x ++ b.x, y := a.y,
                          smap := some (List.zipWith (fun r s => r ++ s) A B),
                          rngs := a.rngs ++ b.rngs, range_cnt := a.range_cnt,
                          filename := a.filename ++ " & " ++ b.filename } ∧
          (a.x ++ b.x).length = a.x.length + b.x.length ∧
          (List.zipWith (fun r s => r ++ s) A B).length = A.length ∧
          ∀ i, i < A.length →
            ((List.zipWith (fun r s => r ++ s) A B).getD i []).length =
              (A.getD i []).length + (B.getD i []).length) := by
  constructor
  · intro hne
    unfold bdAdd
    rw [if_neg hne]
  · intro heq
    have hAB : A.length = B.length := by rw [hra, hrb, heq]
    refine ⟨?_, by simp, by rw [List.length_zipWith]; omega, ?_⟩
    · unfold bdAdd
      rw [if_pos heq, ha, hb]
      simp only [if_pos hAB]
    · intro i hi
      rw [zipWith_append_getD A B i hi (by omega)]
      simp

/-- Left operand of the C6 witness scenario. -/
def c6a : Dataset :=
  { x := [1], y := [0], smap := some [[2]], rngs := [], range_cnt := 1,
    filename := "a" }

/-- Right operand of the C6 witness scenario. -/
def c6b : Dataset :=
  { x := [3], y := [0], smap := some [[4]], rngs := [], range_cnt := 1,
    filename := "b" }

/-- Claim C6 witness: the success case evaluated on two concrete
one-column datasets over the same tilt axis. -/
theorem C6_witness :
    (c6a.smap = some [[2]] ∧ c6b.smap = some [[4]] ∧ c6a.y = c6b.y) ∧
      bdAdd c6a c6b = .ok { x := [1, 3], y := [0], smap := some [[2, 4]],
                            rngs := [], range_cnt := 1, filename := "a & b" } :=
  ⟨⟨rfl, rfl, rfl⟩,
    ((C6_theorem c6a c6b [[2]] [[4]] rfl rfl rfl rfl).2 rfl).1⟩

/-! ### Nearest-index lookup: claims C7 and C8 -/

lemma argminAux_nonpos (v : ℚ) :
    ∀ (xs : List ℚ) (i besti : Nat) (bestd : ℚ), bestd ≤ 0 →
      argminAux v xs i besti bestd = besti := by
  intro xs
  induction xs with
  | nil => intros; rfl
  | cons b t ih =>
    intro i besti bestd hd
    unfold argminAux
    rw [if_neg (not_lt.mpr (le_trans hd (abs_nonneg _)))]
    exact ih (i + 1) besti bestd hd

lemma argminAux_finds (v : ℚ) :
    ∀ (xs : List ℚ) (i besti : Nat) (bestd : ℚ), 0 < bestd → v ∈ xs →
      argminAux v xs i besti bestd = i + xs.indexOf v := by
  intro xs
  induction xs with
  | nil => intro _ _ _ _ hv; cases hv
  | cons b t ih =>
    intro i besti bestd hd hv
    by_cases hb : b = v
    · subst hb
      show (if |b - b| < bestd then argminAux b t (i + 1) i |b - b|
            else argminAux b t (i + 1) besti bestd) = i + (b :: t).indexOf b
      rw [if_pos (by simpa using hd)]
      rw [argminAux_nonpos b t (i + 1) i _ (by simp)]
      rw [List.indexOf_cons_self]
      omega
    · have hv2 : v ∈ t := by
        rcases List.mem_cons.mp hv with h | h
        · exact absurd h.symm hb
        · exact h
      have habs : 0 < |b - v| := abs_pos.mpr (sub_ne_zero.mpr hb)
      show (if |b - v| < bestd then argminAux v t (i + 1) i |b - v|
            else argminAux v t (i + 1) besti bestd) = i + (b :: t).indexOf v
      by_cases hlt : |b - v| < bestd
      · rw [if_pos hlt, ih (i + 1) i _ habs hv2, List.indexOf_cons_ne _ hb]
        omega
      · rw [if_neg hlt, ih (i + 1) besti bestd hd hv2, List.indexOf_cons_ne _ hb]
        omega

/-- The argmin of the distances to a value present in the list is the
index of its first occurrence: a tie at distance zero is broken toward the
earlier index. -/
lemma argminAbs_indexOf (l : List ℚ) (v : ℚ) (hv : v ∈ l) :
    argminAbs l v = l.indexOf v := by
  cases l with
  | nil => cases hv
  | cons a rest =>
    by_cases ha : a = v
    · subst ha
      show argminAux a rest 1 0 |a - a| = (a :: rest).indexOf a
      rw [argminAux_nonpos a rest 1 0 _ (by simp), List.indexOf_cons_self]
    · have hv2 : v ∈ rest := by
        rcases List.mem_cons.mp hv with h | h
        · exact absurd h.symm ha
        · exact h
      have habs : 0 < |a - v| := abs_pos.mpr (sub_ne_zero.mpr ha)
      show argminAux v rest 1 0 |a - v| = (a :: rest).indexOf v
      rw [argminAux_finds v rest 1 0 _ habs hv2, List.indexOf_cons_ne _ ha]
      omega

lemma argminAbs_self (l : List ℚ) (i : Nat) (hi : i < l.length) (hnd : l.Nodup) :
    argminAbs l l[i] = i := by
  rw [argminAbs_indexOf l _ (l.getElem_mem hi)]
  exact List.indexOf_getElem hnd i hi

/-- Claim C7 (amended): on axes with pairwise distinct entries the lookup
of the exact values stored at indices i and j returns (i, j); in general a
tie at distance zero resolves to the first occurrence of the value, per
argminAbs_indexOf. -/
theorem C7_theorem (X Y : List ℚ) (i j : Nat) (hi : i < X.length)
    (hj : j < Y.length) (hX : X.Nodup) (hY : Y.Nodup) :
    get_index_xy X Y (X[i]) (Y[j]) = (i, j) := by
  have hxval : argminAbs X (X[i]) = i := argminAbs_self X i hi hX
  have hyval : argminAbs Y (Y[j]) = j := argminAbs_self Y j hj hY
  have hxcond : ¬(X.length = 1 ∧ X.getD 0 0 < X[i]) := by
    rintro ⟨h1, h2⟩
    have hi0 : i = 0 := by omega
    subst hi0
    rw [List.getD_eq_getElem _ _ (by omega)] at h2
    exact lt_irrefl _ h2
  have hycond : ¬(Y.length = 1 ∧ Y.getD 0 0 < Y[j]) := by
    rintro ⟨h1, h2⟩
    have hj0 : j = 0 := by omega
    subst hj0
    rw [List.getD_eq_getElem _ _ (by omega)] at h2
    exact lt_irrefl _ h2
  simp only [get_index_xy]
  rw [if_neg hxcond, if_neg hycond, hxval, hyval]

/-- Claim C7 counterexample: on the axis [5, 5] the value stored at index
1 is 5, yet the lookup resolves it to index 0, the first occurrence, so
exact-value lookup is not idempotent on axes with duplicates. -/
theorem C7_counterexample :
    ([5, 5] : List ℚ).getD 1 0 = 5 ∧
      (get_index_xy [5, 5] [0] 5 0).1 = 0 ∧ (0 : Nat) ≠ 1 := by
  refine ⟨rfl, ?_, by decide⟩
  have hx : argminAbs [5, 5] 5 = 0 := by
    rw [argminAbs_indexOf [5, 5] 5 (by decide)]
    decide
  simp only [get_index_xy]
  rw [if_neg (fun h => absurd h.1 (by decide)), hx]

/-- Claim C7 witness: the amended statement on the distinct axes [1, 2]
and [7] at indices 1 and 0. -/
theorem C7_witness :
    (([1, 2] : List ℚ).Nodup ∧ ([7] : List ℚ).Nodup) ∧
      get_index_xy [1, 2] [7] 2 7 = (1, 0) :=
  ⟨⟨by decide, by decide⟩,
    C7_theorem [1, 2] [7] 1 0 (by decide) (by decide) (by decide) (by decide)⟩

/-- Claim C8: on an axis of length exactly one with the query strictly
above the single element, the lookup returns index 1, which is out of
bounds for that axis (the axis length does not exceed the returned
index). -/
theorem C8_theorem (X Y : List ℚ) (x y : ℚ) :
    (X.length = 1 → X.getD 0 0 < x →
      (get_index_xy X Y x y).1 = 1 ∧ X.length ≤ (get_index_xy X Y x y).1) ∧
    (Y.length = 1 → Y.getD 0 0 < y →
      (get_index_xy X Y x y).2 = 1 ∧ Y.length ≤ (get_index_xy X Y x y).2) := by
  constructor
  · intro h1 h2
    have hfire : (get_index_xy X Y x y).1 = 1 := by
      simp only [get_index_xy]
      rw [if_pos ⟨h1, h2⟩]
    exact ⟨hfire, by omega⟩
  · intro h1 h2
    have hfire : (get_index_xy X Y x y).2 = 1 := by
      simp only [get_index_xy]
      rw [if_pos ⟨h1, h2⟩]
    exact ⟨hfire, by omega⟩

/-- Claim C8 witness: both axes of length one, both queries above the
stored element; the returned pair is (1, 1), out of bounds on both
axes. -/
theorem C8_witness :
    (([3] : List ℚ).length = 1 ∧ ([3] : List ℚ).getD 0 0 < 5 ∧
        ([4] : List ℚ).length = 1 ∧ ([4] : List ℚ).getD 0 0 < 6) ∧
      (get_index_xy [3] [4] 5 6).1 = 1 ∧
      ([3] : List ℚ).length ≤ (get_index_xy [3] [4] 5 6).1 ∧
      (get_index_xy [3] [4] 5 6).2 = 1 ∧
      ([4] : List ℚ).length ≤ (get_index_xy [3] [4] 5 6).2 :=
  ⟨⟨rfl, by decide, rfl, by decide⟩, by
    have h1 := (C8_theorem [3] [4] 5 6).1 rfl (by decide)
    have h2 := (C8_theorem [3] [4] 5 6).2 rfl (by decide)
    exact ⟨h1.1, h1.2, h2.1, h2.2⟩⟩

end Databruker
